import Mathlib

set_option maxHeartbeats 2000000
set_option maxRecDepth 8000

namespace DL7480CTL

/- #### Configuration store: filesystem model

The GUI layer of src/DL7480CTL.py persists configuration snapshots in files
named `{cwd}\DL74x0-{n}.dat` (numbered slots, `n` an integer) and
`{cwd}\DL74x0-bkup.dat` (the single backup slot).  Those path strings are
pairwise distinct (the decimal rendering of an integer never equals the
string "bkup"), so the store is modelled as an association list keyed by a
structured key type; the newest binding shadows older ones, matching
overwriting file writes. -/

inductive FKey where
  | slot (n : Int)
  | bkup
deriving DecidableEq

abbrev FS := List (FKey × String)

def fsLookup : FS → FKey → Option String
  | [], _ => none
  | (k, v) :: t, key => if key = k then some v else fsLookup t key

def fsWrite (fs : FS) (k : FKey) (v : String) : FS := (k, v) :: fs

def fsRemove (fs : FS) (k : FKey) : FS := fs.filter (fun p => decide (p.1 ≠ k))

def fsExists (fs : FS) (k : FKey) : Bool := (fsLookup fs k).isSome

def fsContentD (fs : FS) (k : FKey) : String := (fsLookup fs k).getD ""

/-- `shutil.move src dst`: write the content of `src` at `dst`, then remove
`src` (used with `src = bkup`, `dst = slot n`, which are distinct keys). -/
def fsMove (fs : FS) (src dst : FKey) : FS :=
  fsRemove (fsWrite fs dst (fsContentD fs src)) src

/-- `shutil.copy src dst`: write the content of `src` at `dst`. -/
def fsCopy (fs : FS) (src dst : FKey) : FS :=
  fsWrite fs dst (fsContentD fs src)

/-- Python file iteration (`for line in fp`) yields the lines of the file,
each keeping its trailing newline; a final fragment without a newline is
yielded as well.  Defined on character lists. -/
def pyLinesChars : List Char → List (List Char)
  | [] => []
  | c :: t =>
    if c = '\n' then ['\n'] :: pyLinesChars t
    else
      match pyLinesChars t with
      | [] => [[c]]
      | p :: ps => (c :: p) :: ps

def pyLines (s : String) : List String := (pyLinesChars s.data).map (fun l => ⟨l⟩)

/-- Slot file name as it appears in user-visible messages
(the common `{cwd}\` directory part is omitted). -/
def slotFileName (n : Int) : String := "DL74x0-" ++ toString n ++ ".dat"

def bkupFileName : String := "DL74x0-bkup.dat"

/- #### GUI state

State of the `Gui` object of src/DL7480CTL.py relevant to save/load/undo,
together with the filesystem, the command lines sent to the device and the
notifications raised.  Three distinct fields mirror the three distinct
Python attribute spellings appearing in the source: `lastSavedId`
(initialised to -1 in `__init__`, line 77, and read by `undoSave`,
line 142), `saveid` (created by the assignment in `saveconfig`, line 201)
and `lastSavedID` (created by the assignments in `undoSave`, line 147, and
`loadconfig`, line 247).  In Python these are three independent instance
attributes. -/

structure GuiState where
  lastSavedId : Int
  saveid : Option Int
  lastSavedID : Option Int
  btnUndoSave : String
  btnUndoLoad : String
  status : String
  files : FS
  sent : List String
  notifications : List String
  devTimeout : Int
deriving DecidableEq

/-- `Gui.__init__` fields (lines 76-77, 104, 117), over a given initial
filesystem and device timeout. -/
def initGui (fs : FS) (t : Int) : GuiState :=
  { lastSavedId := -1, saveid := none, lastSavedID := none,
    btnUndoSave := "disabled", btnUndoLoad := "disabled", status := "init",
    files := fs, sent := [], notifications := [], devTimeout := t }

/-- `Gui.saveconfig` (lines 167-206).  The device interactions are external
inputs: `connectOK` is the result of `self.dl7480.connect()` and `getcfg`
the `(stat, lrn)` pair returned by `self.dl7480.getconfig()`.  Cursor
changes are GUI-only and omitted.  Returns the Python return value and the
updated state.  Note line 188 tests `lrn == ''` (not `stat`), and line 201
assigns the attribute `saveid`. -/
def saveconfigModel (connectOK : Bool) (getcfg : Bool × String) (arg : Int)
    (w : GuiState) : Int × GuiState :=
  if connectOK = false then
    (0, { w with status := "failed" })
  else
    let w := { w with status := "connected" }
    let lrn := getcfg.2
    if lrn = "" then
      (0, { w with notifications :=
              w.notifications ++ ["no response for \"*LRN\" command. Aborted."] })
    else
      let w :=
        if fsExists w.files (FKey.slot arg) then
          { w with files := fsCopy w.files (FKey.slot arg) FKey.bkup }
        else w
      let w := { w with files := fsWrite w.files (FKey.slot arg) lrn }
      let w := { w with
        saveid := some arg
        btnUndoSave := "active"
        notifications := w.notifications ++ ["saved."] }
      (arg, w)

/-- `Gui.undoSave` (lines 139-148).  Tests `self.lastSavedId > 0`
(line 142); if a backup exists it is renamed onto slot `lastSavedId`;
line 147 then assigns the attribute `lastSavedID` (capital D), a different
attribute from `lastSavedId`. -/
def undoSaveModel (w : GuiState) : GuiState :=
  if w.lastSavedId > 0 then
    let w1 :=
      if fsExists w.files FKey.bkup then
        { w with files := fsMove w.files FKey.bkup (FKey.slot w.lastSavedId) }
      else w
    { w1 with lastSavedID := some (-1), btnUndoSave := "disabled" }
  else w

/-- `Gui.loadconfig` (lines 209-259).  Device interactions are external
inputs as in `saveconfigModel`.  On the connected path the device timeout
is saved and set to 10000; the current configuration `lrn` is written to
the backup file before the slot file existence check; each line of an
existing slot file is sent to the device (the `setconfig` transport result
is ignored by the source loop). -/
def loadconfigModel (connectOK : Bool) (getcfg : Bool × String) (arg : Int)
    (w : GuiState) : Int × GuiState :=
  if connectOK = false then
    (0, { w with status := "failed" })
  else
    let w := { w with status := "connected" }
    let timeout := w.devTimeout
    let w := { w with devTimeout := 10000 }
    if getcfg.1 = false then
      (0, { w with notifications :=
              w.notifications ++ ["no response from the oscilloscope. Aborted."] })
    else
      let w := { w with files := fsWrite w.files FKey.bkup getcfg.2 }
      if fsExists w.files (FKey.slot arg) then
        (arg, { w with
          sent := w.sent ++ pyLines (fsContentD w.files (FKey.slot arg))
          lastSavedID := some (-1)
          btnUndoLoad := "active"
          notifications := w.notifications ++ ["loaded."]
          devTimeout := timeout })
      else
        (0, { w with
          notifications := w.notifications ++ [slotFileName arg ++ " not found."]
          devTimeout := timeout })

/-- `Gui.undoLoad` (lines 151-164).  If the backup file exists, every line
of it is sent to the device (`setconfig` catches its own transport errors
and returns a boolean which the loop ignores), and then line 160 executes
`shutil.remove(bkupfile)`.  The `shutil` module has no attribute `remove`
(file removal is `os.remove`), so that call raises `AttributeError`: the
backup file is not deleted and the exception propagates out of `undoLoad`.
The raised exception is modelled in the second component.  If no backup
exists, a "not found" notification is raised and nothing is sent.
The `arg` parameter is used by the source only to build `datfile`
(line 154), which is never read. -/
def undoLoadModel (arg : Int) (w : GuiState) : GuiState × Option String :=
  let _ := slotFileName arg
  if fsExists w.files FKey.bkup then
    let ls := pyLines (fsContentD w.files FKey.bkup)
    ({ w with sent := w.sent ++ ls },
     some "AttributeError: module shutil has no attribute remove")
  else
    ({ w with notifications := w.notifications ++ [bkupFileName ++ " not found."] },
     none)

/- #### Session manager: discovery and identification

`YokogawaDL7480.connect` (lines 349-399) enumerates candidate addresses,
opens each with `self.rm.open_resource(src)`, queries `*IDN?;` and binds the
session to the first candidate whose reply matches one of the two accepted
identification patterns.  A candidate is given by its address, the outcome
of its identification query (`none` models a raised `VisaIOError`), and the
(stripped) reply to the subsequent `*OPT?;` query, which the source issues
outside any try block and which is modelled here as succeeding. -/

structure Candidate where
  addr : String
  idn : Option String
  optReply : String
deriving DecidableEq

/-- Session state of the `YokogawaDL7480` object: the bound transport
(`inst`, as the address it was opened on; its delay/timeout/term settings
are elided), the recorded device family (`devname`), the stored option
string (`opt`), and the bookkeeping list of transports opened by
`open_resource` and not yet closed. -/
structure Session where
  inst : Option String
  devname : String
  opt : String
  openAddrs : List String
deriving DecidableEq

/-- `YokogawaDL7480.__init__` (lines 330-334). -/
def initSession : Session :=
  { inst := none, devname := "", opt := "", openAddrs := [] }

/-- Character-wise string-start test (the first argument is the pattern). -/
def listStartsWith : List Char → List Char → Bool
  | [], _ => true
  | _ :: _, [] => false
  | p :: ps, c :: cs => p == c && listStartsWith ps cs

/-- `re.match(r'YOKOGAWA,7014[56]0', idn)` (line 374): anchored literal
match, i.e. a string-start test against the two literal alternatives. -/
def matchDL7440 (s : String) : Bool :=
  listStartsWith "YOKOGAWA,701450".data s.data
    || listStartsWith "YOKOGAWA,701460".data s.data

/-- `re.match(r'YOKOGAWA,7014[78]0', idn)` (line 384). -/
def matchDL7480 (s : String) : Bool :=
  listStartsWith "YOKOGAWA,701470".data s.data
    || listStartsWith "YOKOGAWA,701480".data s.data

/-- The scanning loop of `connect` (lines 361-392).  Each candidate is
opened (appended to `openAddrs`) and never closed; a failed identification
query just moves on (lines 370-372); a matching reply binds `inst`,
`devname` and `opt` and breaks out of the loop. -/
def connectScan : List Candidate → Session → Session
  | [], s => s
  | c :: rest, s =>
    if s.inst.isSome then s
    else
      let s1 := { s with openAddrs := s.openAddrs ++ [c.addr] }
      match c.idn with
      | none => connectScan rest s1
      | some idn =>
        if matchDL7440 idn then
          { s1 with inst := some c.addr, devname := "DL7440", opt := c.optReply }
        else if matchDL7480 idn then
          { s1 with inst := some c.addr, devname := "DL7480", opt := c.optReply }
        else connectScan rest s1

/-- `YokogawaDL7480.connect` (lines 349-399): immediate success when
already connected (line 356-357), otherwise scan the candidate list and
report whether a transport was bound. -/
def connectModel (cands : List Candidate) (s : Session) : Session × Bool :=
  if s.inst.isSome then (s, true)
  else
    let s1 := connectScan cands s
    (s1, s1.inst.isSome)

/-- The addresses `connect` opens while scanning from an unconnected
session: every candidate up to and including the first matching one
(all of them when none matches). -/
def openedDuring : List Candidate → List String
  | [] => []
  | c :: rest =>
    c.addr ::
      (match c.idn with
       | none => openedDuring rest
       | some idn =>
         if matchDL7440 idn || matchDL7480 idn then [] else openedDuring rest)

/-- Address of the first candidate whose identification reply matches an
accepted pattern. -/
def firstMatchAddr : List Candidate → Option String
  | [] => none
  | c :: rest =>
    match c.idn with
    | none => firstMatchAddr rest
    | some idn =>
      if matchDL7440 idn || matchDL7480 idn then some c.addr
      else firstMatchAddr rest

/-- `YokogawaDL7480.closeinst` (lines 583-591): closes and clears the bound
transport (and the resource manager), but leaves `devname` and `opt`
untouched. -/
def closeinstModel (s : Session) : Session :=
  { s with
    inst := none
    openAddrs := s.openAddrs.filter (fun a => decide (some a ≠ s.inst)) }

/-- `YokogawaDL7480.__del__` (lines 337-347): if a transport is bound,
closes it and clears `inst`, `devname` and `opt`. -/
def delModel (s : Session) : Session :=
  if s.inst.isSome then
    { s with
      inst := none
      devname := ""
      opt := ""
      openAddrs := s.openAddrs.filter (fun a => decide (some a ≠ s.inst)) }
  else s

/-- The spec invariant of the Session data model: the device family is
recorded exactly when a transport is bound. -/
def sessionInv (s : Session) : Prop := (s.devname ≠ "") ↔ s.inst.isSome = true

instance (s : Session) : Decidable (sessionInv s) := by
  unfold sessionInv; infer_instance

/- #### setconfig

`YokogawaDL7480.setconfig` (lines 594-623) on a connected session.  The two
`self.inst.write(...)` call sites can each either succeed or raise
`pyvisa.errors.VisaIOError`; their outcomes are external inputs `o1` (the
write of `arg`, line 613) and `o2` (the write of `*CLS` in the handler,
line 620; evaluated only when `o1` times out). -/

inductive WOut where
  | writeOk
  | visaTimeout
deriving DecidableEq

/-- Transport-facing state of the instrument handle used by `setconfig`:
its current timeout and the command strings successfully written. -/
structure Inst where
  timeout : Int
  written : List String
deriving DecidableEq

/-- `setconfig` body, connected case (lines 609-623): save the timeout, set
it to 20000, attempt the write; on success restore and return `True`; on
`VisaIOError` write `*CLS`, restore, return `False`.  If the `*CLS` write
itself raises, the exception leaves `setconfig` (modelled by
`Except.error ()`) with the timeout still at 20000. -/
def setconfigModel (o1 o2 : WOut) (arg : String) (d : Inst) :
    Inst × Except Unit Bool :=
  let t0 := d.timeout
  let d1 := { d with timeout := 20000 }
  match o1 with
  | WOut.writeOk =>
    ({ d1 with written := d1.written ++ [arg], timeout := t0 }, Except.ok true)
  | WOut.visaTimeout =>
    match o2 with
    | WOut.writeOk =>
      ({ d1 with written := d1.written ++ ["*CLS"], timeout := t0 }, Except.ok false)
    | WOut.visaTimeout => (d1, Except.error ())

/- #### Block protocol codec: the read side of capture

`YokogawaDL7480.capture` (lines 438-471) reads the framed binary reply to
`:IMAGe:SEND?;` from the transport.  The reply is modelled as a byte
stream (a list of byte values); `read_bytes(count=k, break_on_termchar=
False)` consumes exactly `k` bytes, raising `VisaIOError` when the stream
is exhausted first.  pyvisa returns a nonnegative-count read immediately
when `count <= 0` (its fill loop `while len(ret) < count` never runs), so a
negative count yields the empty byte string. -/

/-- One `read_bytes` call: `none` models a raised `VisaIOError`. -/
def readB (k : Int) (s : List Nat) : Option (List Nat × List Nat) :=
  if k ≤ 0 then some ([], s)
  else if (s.length : Int) < k then none
  else some (s.take k.toNat, s.drop k.toNat)

/-- Python whitespace bytes accepted by `int()`. -/
def isPySpace (b : Nat) : Bool :=
  b = 32 || b = 9 || b = 10 || b = 13 || b = 11 || b = 12

def isDigitB (b : Nat) : Bool := decide (48 ≤ b) && decide (b ≤ 57)

/-- Digit tail of a Python integer literal: decimal digits with single
underscores (byte 95) allowed between digits. `acc` holds the value of the
digits already read. -/
def parseDigitsU : List Nat → Nat → Option Nat
  | [], acc => some acc
  | 95 :: b :: t, acc =>
    if isDigitB b then parseDigitsU t (acc * 10 + (b - 48)) else none
  | [95], _ => none
  | b :: t, acc =>
    if isDigitB b then parseDigitsU t (acc * 10 + (b - 48)) else none

/-- Nonempty digit sequence (first byte must be a digit). -/
def pyIntCore : List Nat → Option Nat
  | [] => none
  | b :: t => if isDigitB b then parseDigitsU t (b - 48) else none

/-- Python `int()` applied to a byte string: optional surrounding
whitespace, optional sign, then digits; `none` models a raised
`ValueError`. -/
def pyInt (bs : List Nat) : Option Int :=
  let core := ((bs.dropWhile isPySpace).reverse.dropWhile isPySpace).reverse
  match core with
  | 43 :: t => (pyIntCore t).map (fun v => (v : Int))
  | 45 :: t => (pyIntCore t).map (fun v => -(v : Int))
  | t => (pyIntCore t).map (fun v => (v : Int))

/-- Line 459 compares `d0 == '\n'` where `d0` is a `bytes` value returned
by `read_bytes` and `'\n'` is a `str`; in Python 3 a `bytes` value never
equals a `str` value, so this condition is always `False` whatever `d0`
holds. -/
def bytesEqStrNewline (_d0 : List Nat) : Bool := false

inductive CapErr where
  | unexpectedResponse
  | timeoutDuringCapture
deriving DecidableEq

/-- First try block of the capture read (lines 438-455): block-start
marker byte (with the one-extra-read tolerance of lines 441-443, which
re-reads but performs no check on the second byte), the digit-count byte,
the length field, and both `int()` conversions.  `none` models any of
`VisaIOError` or `ValueError` there, all mapped by the source to the same
failure message.  Returns the declared payload length and the remaining
stream. -/
def capturePhase1 (s0 : List Nat) : Option (Int × List Nat) :=
  match readB 1 s0 with
  | none => none
  | some (shash, s1) =>
    match (if shash ≠ [35] then readB 1 s1 else some (shash, s1)) with
    | none => none
    | some (_, s2) =>
      match readB 1 s2 with
      | none => none
      | some (sdigit, s3) =>
        match pyInt sdigit with
        | none => none
        | some d =>
          match readB d s3 with
          | none => none
          | some (sbyte, s4) =>
            match pyInt sbyte with
            | none => none
            | some nbyte => some (nbyte, s4)

/-- Second try block of the capture read (lines 457-470): the speculative
terminator byte `d0` (whose comparison against the line terminator is the
always-false bytes-versus-str test `bytesEqStrNewline`), the payload, and
the discarded trailing byte. -/
def capturePhase2 (nbyte : Int) (s : List Nat) : Option (List Nat) :=
  match readB 1 s with
  | none => none
  | some (d0, s1) =>
    if bytesEqStrNewline d0 then
      match readB nbyte s1 with
      | none => none
      | some (data, s2) =>
        match readB 1 s2 with
        | none => none
        | some _ => some data
    else
      match readB (nbyte - 1) s1 with
      | none => none
      | some (rest, s2) =>
        match readB 1 s2 with
        | none => none
        | some _ => some (d0 ++ rest)

/-- The capture block decode: phase-1 failures surface as the
"response from oscilloscope is unexpected" error (lines 450-455), phase-2
failures as the "timeout during capturing" error (lines 469-470); success
returns the payload bytes written to the temporary image file. -/
def captureDecode (s : List Nat) : Except CapErr (List Nat) :=
  match capturePhase1 s with
  | none => Except.error CapErr.unexpectedResponse
  | some (nbyte, s1) =>
    match capturePhase2 nbyte s1 with
    | none => Except.error CapErr.timeoutDuringCapture
    | some data => Except.ok data

/-- ASCII decimal digits of `v` (most significant first), as byte values. -/
def natDecimalBytes (v : Nat) : List Nat := (Nat.toDigits 10 v).map Char.toNat

/-- The length field of a block frame: the decimal value left-padded with
ASCII zeros to exactly `w` digits. -/
def lenField (w v : Nat) : List Nat :=
  List.replicate (w - (natDecimalBytes v).length) 48 ++ natDecimalBytes v

/-- The block encoding described by the spec round-trip property:
`#` (35) + digit-count byte + decimal length in `digitCount` digits +
optional line terminator (10) + payload + terminator (10). -/
def encodeBlock (digitCount : Nat) (withTerm : Bool) (payload : List Nat) :
    List Nat :=
  35 :: (48 + digitCount) :: lenField digitCount payload.length
    ++ (if withTerm then [10] else []) ++ payload ++ [10]

/- #### Command chunker

`YokogawaDL7480.splitInst` (lines 565-580), over character lists.  The
source repeatedly matches the anchored Python regular expression
`^;(:.{,1018};):` against `s`; the greedy `.{,1018}` takes the longest
middle (at most 1018 characters, none of them a newline, since the dot
does not match `'\n'`) such that the following two characters are `;` and
`:`.  `scanBest` computes the length of that longest middle in one pass
over the characters after the initial `;:`. -/

/-- Python `str.strip(chars)`: remove the characters satisfying `p` from
both ends. -/
def rstripBy (p : Char → Bool) (s : List Char) : List Char :=
  (s.reverse.dropWhile p).reverse

def stripBy (p : Char → Bool) (s : List Char) : List Char :=
  rstripBy p (s.dropWhile p)

def semiNl (c : Char) : Bool := c == ';' || c == '\n'

def onlySemi (c : Char) : Bool := c == ';'

/-- `arg.strip(';\n')`. -/
def stripSemiNl (s : List Char) : List Char := stripBy semiNl s

/-- `s.strip(';')`. -/
def stripSemi (s : List Char) : List Char := stripBy onlySemi s

/-- Length of the longest regex middle: the largest `k ≤ 1018` such that,
in the characters after the opening `;:`, position `k` holds `;`, position
`k+1` holds `:`, and no position before `k` holds a newline (the regex dot
cannot match a newline, which also cuts off all longer candidates). -/
def scanBest : List Char → Nat → Option Nat → Option Nat
  | [], _, best => best
  | [_], _, best => best
  | c1 :: c2 :: rest, k, best =>
    if 1018 < k then best
    else
      let best2 := if c1 = ';' ∧ c2 = ':' then some k else best
      if c1 = '\n' then best2
      else scanBest (c2 :: rest) (k + 1) best2

/-- `re.search(r'^;(:.{,1018};):', s)`: the match exists exactly when `s`
begins with `;:` and `scanBest` finds a boundary; the returned `n` is the
length of the matched middle, so that group 1 is `s[1 : n+3]` and the whole
match is `s[0 : n+4]`. -/
def findN : List Char → Option Nat
  | ';' :: ':' :: rest => scanBest rest 0 none
  | _ => none

/-- The `while m != None` loop of `splitInst` (lines 573-579), emitting the
payload of each chunk (the text between the `*WAI;` that is prepended and
the `'\n'` that is appended, line 575 and line 579).  On a match of length
`n`: group 1 is `(s.drop 1).take (n+2)` and the loop continues on
`';:' + s[n+4:]`; otherwise the remaining `s` (always nonempty here) is
stripped of `;` and emitted last.  The recursion consumes at least two
characters of `s` per iteration, so `s.length` steps of fuel always
suffice (`splitLoopPayloads` below instantiates the fuel that way). -/
def splitLoopFuel : Nat → List Char → List (List Char)
  | 0, _ => []
  | f + 1, s =>
    match findN s with
    | some n =>
      ((s.drop 1).take (n + 2)) :: splitLoopFuel f (';' :: ':' :: s.drop (n + 4))
    | none => if 0 < s.length then [stripSemi s] else []

def splitLoopPayloads (s : List Char) : List (List Char) :=
  splitLoopFuel s.length s

/-- The payloads of the chunks emitted by `splitInst`: a single stripped
payload when `len(arg) < 1024-6` (line 568), otherwise the loop applied to
`';' + arg.strip(';\n') + ';'` (line 572). -/
def splitPayloads (arg : List Char) : List (List Char) :=
  if arg.length < 1018 then [stripSemiNl arg]
  else splitLoopPayloads (';' :: (stripSemiNl arg ++ [';']))

def waiChars : List Char := ['*', 'W', 'A', 'I', ';']

/-- A chunk as built by lines 569, 575 and 579: `'*WAI;' + payload + '\n'`. -/
def chunkOf (p : List Char) : List Char := waiChars ++ p ++ ['\n']

/-- The list of chunks emitted by `splitInst` (the source returns their
concatenation, one string: a single chunk from the short branch, or
`''.join(r)` of the accumulated list `r`). -/
def splitInstChunks (arg : List Char) : List (List Char) :=
  (splitPayloads arg).map chunkOf

def concatAll {α : Type} : List (List α) → List α :=
  List.foldr (fun a b => a ++ b) []

/-- The string returned by `splitInst`. -/
def splitInst (arg : List Char) : List Char := concatAll (splitInstChunks arg)

/-- The ordered section list of a composite command string, formalising the
notion used by the spec: the string is cut after every `;` that is
immediately followed by a `:` (the boundary between one `:SECTION...;`
unit and the next); each section keeps its text verbatim. -/
def sections : List Char → List (List Char)
  | [] => []
  | [c] => [[c]]
  | c1 :: c2 :: t =>
    if c1 = ';' ∧ c2 = ':' then
      [c1] :: sections (c2 :: t)
    else
      match sections (c2 :: t) with
      | [] => [[c1]]
      | p :: ps => (c1 :: p) :: ps

/- #### Concrete instances used by the claim theorems -/

def c3arg : List Char :=
  [':'] ++ List.replicate 1017 'a' ++ [';', ':', 'b', ';']

def c3p0 : List Char := [':'] ++ List.replicate 1017 'a' ++ [';']

def c3p1 : List Char := [':', 'b']

def c3tail : List Char := [':'] ++ List.replicate 1048 'x' ++ [';']

def c4arg : List Char := (":ACQUIRE:MODE NORMAL;:CHANNEL1:DISPLAY ON").toList

def c2w : GuiState := initGui [(FKey.slot 3, "OLD")] 5000

def c5w : GuiState := initGui [(FKey.slot 1, "S1"), (FKey.bkup, "OLDBKP")] 5000

def c6w : GuiState := initGui [(FKey.bkup, "A\nB\n")] 5000

def c9cands : List Candidate :=
  [{ addr := "USB0::a1", idn := some "HP,54645D", optReply := "X" },
   { addr := "USB0::a2", idn := some "YOKOGAWA,701470", optReply := "CH4MW" }]

def c10cands : List Candidate :=
  [{ addr := "USB0::a1", idn := some "YOKOGAWA,701450", optReply := "CH4MW" }]

/- #### Helper lemmas on lists -/

theorem get?_drop_cons {α : Type} :
    ∀ (i : Nat) (l : List α) (a : α), l.get? i = some a →
      l.drop i = a :: l.drop (i + 1) := by
  intro i
  induction i with
  | zero =>
    intro l a h
    cases l with
    | nil => simp [List.get?] at h
    | cons b t =>
      simp [List.get?] at h
      simp [h]
  | succ i ih =>
    intro l a h
    cases l with
    | nil => simp [List.get?] at h
    | cons b t =>
      simp only [List.get?] at h
      simpa [List.drop] using ih t a h

theorem dropWhile_cons_false {α : Type} (p : α → Bool) (a : α) (t : List α)
    (h : p a = false) : (a :: t).dropWhile p = a :: t := by
  simp [List.dropWhile, h]

theorem dropWhile_append_left {α : Type} (p : α → Bool) :
    ∀ (u v : List α), u.dropWhile p ≠ [] →
      (u ++ v).dropWhile p = u.dropWhile p ++ v := by
  intro u
  induction u with
  | nil => intro v h; simp [List.dropWhile] at h
  | cons a t ih =>
    intro v h
    cases hp : p a with
    | true =>
      simp only [List.dropWhile, hp] at h ⊢
      exact ih v h
    | false =>
      rw [List.cons_append, dropWhile_cons_false p a (t ++ v) hp,
        dropWhile_cons_false p a t hp, List.cons_append]

theorem dropWhile_append_nil {α : Type} (p : α → Bool) :
    ∀ (u v : List α), u.dropWhile p = [] →
      (u ++ v).dropWhile p = v.dropWhile p := by
  intro u
  induction u with
  | nil => intro v _; simp
  | cons a t ih =>
    intro v h
    cases hp : p a with
    | true =>
      simp only [List.dropWhile, hp] at h ⊢
      exact ih v h
    | false => simp [List.dropWhile, hp] at h

theorem head?_dropWhile_false {α : Type} (p : α → Bool) :
    ∀ (l : List α) (a : α), (l.dropWhile p).head? = some a → p a = false := by
  intro l
  induction l with
  | nil => intro a h; simp [List.dropWhile] at h
  | cons b t ih =>
    intro a h
    cases hp : p b with
    | true =>
      simp only [List.dropWhile, hp] at h
      exact ih a h
    | false =>
      simp only [List.dropWhile, hp, List.head?] at h
      cases h
      exact hp

theorem dropWhile_ne_nil_of_mem {α : Type} (p : α → Bool) {l : List α} {a : α}
    (ha : a ∈ l) (hp : p a = false) : l.dropWhile p ≠ [] := by
  intro h
  rw [List.dropWhile_eq_nil_iff] at h
  have := h a ha
  rw [hp] at this
  exact Bool.false_ne_true this

theorem head?_rstripBy (p : Char → Bool) (l : List Char)
    (h : rstripBy p l ≠ []) : (rstripBy p l).head? = l.head? := by
  cases l with
  | nil => simp [rstripBy] at h
  | cons a t =>
    unfold rstripBy at h ⊢
    rw [List.reverse_cons]
    by_cases h2 : t.reverse.dropWhile p = []
    · rw [dropWhile_append_nil p _ _ h2]
      cases hp : p a with
      | true =>
        rw [List.reverse_cons, dropWhile_append_nil p _ _ h2] at h
        simp [List.dropWhile, hp] at h
      | false => simp [List.dropWhile, hp]
    · rw [dropWhile_append_left p _ _ h2]
      simp

theorem getLast?_cons_of_ne {α : Type} (a : α) (t : List α) (h : t ≠ []) :
    (a :: t).getLast? = t.getLast? := by
  cases t with
  | nil => exact absurd rfl h
  | cons b u => exact List.getLast?_cons_cons

theorem head?_append_of_ne_nil {α : Type} (u v : List α) (h : u ≠ []) :
    (u ++ v).head? = u.head? := by
  cases u with
  | nil => exact absurd rfl h
  | cons a t => simp

theorem getLast?_eq_reverse_head? {α : Type} :
    ∀ (l : List α), l.getLast? = l.reverse.head? := by
  intro l
  induction l with
  | nil => rfl
  | cons a t ih =>
    rw [List.reverse_cons]
    cases ht : t with
    | nil => simp
    | cons b u =>
      rw [← ht, getLast?_cons_of_ne a t (by simp [ht]), ih,
        head?_append_of_ne_nil]
      simp [ht]

theorem getLast?_take_get? {α : Type} :
    ∀ (k : Nat) (l : List α) (a : α), l.get? k = some a →
      (l.take (k + 1)).getLast? = some a := by
  intro k
  induction k with
  | zero =>
    intro l a h
    cases l with
    | nil => simp [List.get?] at h
    | cons b t =>
      simp [List.get?] at h
      simp [List.take, h]
  | succ k ih =>
    intro l a h
    cases l with
    | nil => simp [List.get?] at h
    | cons b t =>
      simp only [List.get?] at h
      have h2 := ih t a h
      have hne : t.take (k + 1) ≠ [] := by
        intro hnil
        rw [hnil] at h2
        simp at h2
      rw [List.take_succ_cons, getLast?_cons_of_ne _ _ hne]
      exact h2

/- #### Helper lemmas on the strip operations -/

theorem stripSemi_cons_semi (t : List Char) :
    stripSemi (';' :: t) = stripSemi t := by
  unfold stripSemi stripBy
  congr 1

theorem rstripBy_ne_nil_of_mem (p : Char → Bool) {l : List Char} {a : Char}
    (ha : a ∈ l) (hp : p a = false) : rstripBy p l ≠ [] := by
  unfold rstripBy
  intro h
  rw [List.reverse_eq_nil_iff] at h
  exact dropWhile_ne_nil_of_mem p (List.mem_reverse.mpr ha) hp h

theorem stripSemi_head_colon (t : List Char) :
    (stripSemi (':' :: t)).head? = some ':' := by
  unfold stripSemi stripBy
  rw [dropWhile_cons_false onlySemi ':' t (by decide)]
  rw [head?_rstripBy onlySemi (':' :: t)
    (rstripBy_ne_nil_of_mem onlySemi (List.mem_cons_self ':' t) (by decide))]
  rfl

theorem stripSemi_append_keep (x y : List Char)
    (hx : x.head? = some ':') (hy : y.head? = some ':') :
    stripSemi (x ++ y) = x ++ stripSemi y := by
  cases x with
  | nil => simp [List.head?] at hx
  | cons a x' =>
    cases y with
    | nil => simp [List.head?] at hy
    | cons b y' =>
      simp only [List.head?, Option.some.injEq] at hx hy
      subst hx; subst hy
      have hmem : ':' ∈ (':' :: y') := List.mem_cons_self ':' y'
      have hrev : (':' :: y').reverse.dropWhile onlySemi ≠ [] :=
        dropWhile_ne_nil_of_mem onlySemi (List.mem_reverse.mpr hmem) (by decide)
      unfold stripSemi stripBy rstripBy
      rw [List.cons_append,
        dropWhile_cons_false onlySemi ':' (x' ++ ':' :: y') (by decide),
        dropWhile_cons_false onlySemi ':' y' (by decide),
        ← List.cons_append, List.reverse_append,
        dropWhile_append_left onlySemi _ _ hrev,
        List.reverse_append, List.reverse_reverse]

theorem head?_stripBy_false (p : Char → Bool) (s : List Char) (a : Char)
    (h : (stripBy p s).head? = some a) : p a = false := by
  unfold stripBy at h
  by_cases hn : rstripBy p (s.dropWhile p) = []
  · rw [hn] at h; simp at h
  · rw [head?_rstripBy p _ hn] at h
    exact head?_dropWhile_false p _ a h

theorem getLast?_stripBy_false (p : Char → Bool) (s : List Char) (a : Char)
    (h : (stripBy p s).getLast? = some a) : p a = false := by
  rw [getLast?_eq_reverse_head?] at h
  unfold stripBy rstripBy at h
  rw [List.reverse_reverse] at h
  exact head?_dropWhile_false p _ a h

theorem stripSemi_append_semi (A : List Char)
    (h1 : ∀ a, A.head? = some a → onlySemi a = false)
    (h2 : ∀ a, A.getLast? = some a → onlySemi a = false) :
    stripSemi (A ++ [';']) = A := by
  cases A with
  | nil => decide
  | cons a t =>
    have ha : onlySemi a = false := h1 a rfl
    cases hr : (a :: t).reverse with
    | nil =>
      exfalso
      have := List.reverse_eq_nil_iff.mp hr
      simp at this
    | cons c u =>
      have hcl : (a :: t).getLast? = some c := by
        rw [getLast?_eq_reverse_head?, hr]; rfl
      have hcf : onlySemi c = false := h2 c hcl
      unfold stripSemi stripBy rstripBy
      rw [List.cons_append, dropWhile_cons_false onlySemi a (t ++ [';']) ha,
        ← List.cons_append, List.reverse_append, hr]
      rw [show ([';'].reverse ++ c :: u) = ';' :: c :: u from rfl]
      rw [show List.dropWhile onlySemi (';' :: c :: u)
            = List.dropWhile onlySemi (c :: u) by simp [List.dropWhile, onlySemi]]
      rw [dropWhile_cons_false onlySemi c u hcf, ← hr, List.reverse_reverse]

/- #### Helper lemmas on sections -/

theorem sections_ne_nil : ∀ (l : List Char), l ≠ [] → sections l ≠ [] := by
  intro l h
  match l with
  | [] => exact absurd rfl h
  | [c] => simp [sections]
  | c1 :: c2 :: t =>
    simp only [sections]
    by_cases hb : c1 = ';' ∧ c2 = ':'
    · rw [if_pos hb]; simp
    · rw [if_neg hb]
      cases hs : sections (c2 :: t) with
      | nil => simp
      | cons p ps => simp

theorem sections_append_boundary :
    ∀ (x y : List Char), x ≠ [] → x.getLast? = some ';' → y.head? = some ':' →
      sections (x ++ y) = sections x ++ sections y := by
  intro x
  induction x with
  | nil => intro y h; exact absurd rfl h
  | cons c1 t ih =>
    intro y _ hlast hy
    cases t with
    | nil =>
      simp only [List.getLast?_singleton, Option.some.injEq] at hlast
      subst hlast
      cases y with
      | nil => simp [List.head?] at hy
      | cons b y' =>
        simp only [List.head?, Option.some.injEq] at hy
        subst hy
        show sections (';' :: ':' :: y') = sections [';'] ++ sections (':' :: y')
        simp [sections]
    | cons c2 u =>
      have hlast2 : (c2 :: u).getLast? = some ';' := by
        rw [← getLast?_cons_of_ne c1 (c2 :: u) (by simp)]
        exact hlast
      have ihx := ih y (by simp) hlast2 hy
      show sections (c1 :: ((c2 :: u) ++ y)) = sections (c1 :: c2 :: u) ++ sections y
      rw [show ((c2 :: u) ++ y) = c2 :: (u ++ y) from rfl]
      by_cases hb : c1 = ';' ∧ c2 = ':'
      · simp only [sections]
        rw [if_pos hb, if_pos hb]
        rw [show (c2 :: (u ++ y)) = (c2 :: u) ++ y from rfl, ihx]
        rfl
      · have hne := sections_ne_nil (c2 :: u) (by simp)
        cases hs : sections (c2 :: u) with
        | nil => exact absurd hs hne
        | cons p ps =>
          simp only [sections]
          rw [if_neg hb, if_neg hb]
          rw [show (c2 :: (u ++ y)) = (c2 :: u) ++ y from rfl, ihx, hs,
            List.cons_append]
          simp

/- #### Helper lemmas on the chunker -/

theorem scanBest_spec :
    ∀ (t : List Char) (k : Nat) (b : Option Nat) (n : Nat),
      scanBest t k b = some n →
      b = some n ∨
        (k ≤ n ∧ n ≤ 1018 ∧ n - k + 1 < t.length ∧
          t.get? (n - k) = some ';' ∧ t.get? (n - k + 1) = some ':') := by
  intro t
  induction t with
  | nil => intro k b n h; simp [scanBest] at h; exact Or.inl h
  | cons c1 t ih =>
    intro k b n h
    cases t with
    | nil => simp [scanBest] at h; exact Or.inl h
    | cons c2 rest =>
      simp only [scanBest] at h
      by_cases hk : 1018 < k
      · rw [if_pos hk] at h; exact Or.inl h
      · rw [if_neg hk] at h
        by_cases hnl : c1 = '\n'
        · rw [if_pos hnl] at h
          by_cases hbd : c1 = ';' ∧ c2 = ':'
          · exact absurd (hbd.1.symm.trans hnl) (by decide)
          · rw [if_neg hbd] at h; exact Or.inl h
        · rw [if_neg hnl] at h
          have := ih (k + 1) _ n h
          by_cases hbd : c1 = ';' ∧ c2 = ':'
          · rw [if_pos hbd] at this
            rcases this with heq | ⟨h1, h2, h3, h4, h5⟩
            · cases heq
              right
              refine ⟨Nat.le_refl k, Nat.le_of_not_lt hk, ?_, ?_, ?_⟩
              · simp only [Nat.sub_self, List.length_cons]; omega
              · simp [Nat.sub_self, List.get?, hbd.1]
              · simp [Nat.sub_self, List.get?, hbd.2]
            · right
              refine ⟨Nat.le_of_succ_le h1, h2, ?_, ?_, ?_⟩
              · simp only [List.length_cons] at h3 ⊢; omega
              · rw [show n - k = (n - (k + 1)) + 1 by omega]
                simpa [List.get?] using h4
              · rw [show n - k + 1 = (n - (k + 1) + 1) + 1 by omega]
                simpa [List.get?] using h5
          · rw [if_neg hbd] at this
            rcases this with heq | ⟨h1, h2, h3, h4, h5⟩
            · exact Or.inl heq
            · right
              refine ⟨Nat.le_of_succ_le h1, h2, ?_, ?_, ?_⟩
              · simp only [List.length_cons] at h3 ⊢; omega
              · rw [show n - k = (n - (k + 1)) + 1 by omega]
                simpa [List.get?] using h4
              · rw [show n - k + 1 = (n - (k + 1) + 1) + 1 by omega]
                simpa [List.get?] using h5

theorem findN_spec (s : List Char) (n : Nat) (h : findN s = some n) :
    n ≤ 1018 ∧ n + 3 < s.length ∧
      s.get? 0 = some ';' ∧ s.get? 1 = some ':' ∧
      s.get? (n + 2) = some ';' ∧ s.get? (n + 3) = some ':' := by
  match s with
  | [] => simp [findN] at h
  | [c] =>
    unfold findN at h
    split at h
    · next heq => simp at heq
    · exact absurd h (by simp)
  | c1 :: c2 :: rest =>
    unfold findN at h
    split at h
    · next heq =>
      injection heq with e1 e2
      injection e2 with e2 e3
      subst e1; subst e2; subst e3
      have := scanBest_spec rest 0 none n h
      rcases this with heq | ⟨_, h2, h3, h4, h5⟩
      · exact absurd heq (by simp)
      · refine ⟨h2, ?_, rfl, rfl, ?_, ?_⟩
        · simp only [Nat.sub_zero] at h3
          simp only [List.length_cons]; omega
        · simpa [List.get?, Nat.sub_zero] using h4
        · simpa [List.get?, Nat.sub_zero] using h5
    · exact absurd h (by simp)

theorem get?_drop {α : Type} :
    ∀ (m : Nat) (l : List α) (i : Nat), (l.drop m).get? i = l.get? (m + i) := by
  intro m
  induction m with
  | zero => intro l i; simp
  | succ m ih =>
    intro l i
    cases l with
    | nil => simp [List.get?]
    | cons a t =>
      simp only [List.drop]
      rw [ih t i]
      simp only [Nat.succ_add, List.get?]

/-- Structure of one loop iteration on a match: the remaining suffix splits
as the emitted payload followed by the continuation text. -/
theorem loop_step (s : List Char) (n : Nat) (h : findN s = some n) :
    s.drop 1 = (s.drop 1).take (n + 2) ++ (':' :: s.drop (n + 4)) := by
  obtain ⟨-, -, -, -, -, h6⟩ := findN_spec s n h
  conv_lhs => rw [← List.take_append_drop (n + 2) (s.drop 1)]
  congr 1
  rw [List.drop_drop, show 1 + (n + 2) = n + 3 by omega,
    show n + 4 = n + 3 + 1 by omega]
  exact get?_drop_cons (n + 3) s ':' h6

theorem payload_head (s : List Char) (n : Nat) (h2 : s.get? 1 = some ':') :
    ((s.drop 1).take (n + 2)).head? = some ':' := by
  rw [get?_drop_cons 1 s ':' h2]
  rfl

theorem payload_last (s : List Char) (n : Nat) (h : s.get? (n + 2) = some ';') :
    ((s.drop 1).take (n + 2)).getLast? = some ';' := by
  have : (s.drop 1).get? (n + 1) = some ';' := by
    rw [get?_drop 1 s (n + 1), show 1 + (n + 1) = n + 2 by omega]
    exact h
  exact getLast?_take_get? (n + 1) (s.drop 1) ';' this

/-- Content preservation of the chunking loop, proved together with its
section-list refinement: with enough fuel (the length of `s` suffices),
the concatenation of the emitted payloads is `s` with its leading `;`
and trailing `;`-run removed, and the concatenation of the payload section
lists is the section list of that same string. -/
theorem loop_main :
    ∀ (f : Nat) (s : List Char), s.length ≤ f → s.head? = some ';' →
      concatAll (splitLoopFuel f s) = stripSemi (s.drop 1) ∧
      concatAll ((splitLoopFuel f s).map sections) = sections (stripSemi (s.drop 1)) := by
  intro f
  induction f with
  | zero =>
    intro s hf hh
    interval_cases hs : s.length
    · rw [List.length_eq_zero] at hs
      subst hs
      simp at hh
  | succ f ih =>
    intro s hf hh
    cases hfind : findN s with
    | none =>
      have hpos : 0 < s.length := by
        cases s with
        | nil => simp at hh
        | cons a t => simp
      simp only [splitLoopFuel, hfind, if_pos hpos]
      cases s with
      | nil => simp at hh
      | cons a t =>
        simp only [List.head?, Option.some.injEq] at hh
        subst hh
        constructor
        · show stripSemi (';' :: t) ++ [] = stripSemi t
          rw [List.append_nil, stripSemi_cons_semi]
        · show sections (stripSemi (';' :: t)) ++ [] = sections (stripSemi t)
          rw [List.append_nil, stripSemi_cons_semi]
    | some n =>
      obtain ⟨hn, hlen, h0, h1, h2, h3⟩ := findN_spec s n hfind
      have hstep := loop_step s n hfind
      have hnews : (';' :: ':' :: s.drop (n + 4)).length ≤ f := by
        simp only [List.length_cons, List.length_drop]
        omega
      have ihs := ih (';' :: ':' :: s.drop (n + 4)) hnews rfl
      have hdrop1 : (';' :: ':' :: s.drop (n + 4)).drop 1 = ':' :: s.drop (n + 4) := rfl
      rw [hdrop1] at ihs
      have hph := payload_head s n h1
      have hpl := payload_last s n h2
      have hkeep : stripSemi ((s.drop 1).take (n + 2) ++ (':' :: s.drop (n + 4)))
          = (s.drop 1).take (n + 2) ++ stripSemi (':' :: s.drop (n + 4)) :=
        stripSemi_append_keep _ _ hph rfl
      have hpn : (s.drop 1).take (n + 2) ≠ [] := by
        intro hnil; rw [hnil] at hph; simp at hph
      simp only [splitLoopFuel, hfind]
      constructor
      · show (s.drop 1).take (n + 2) ++ concatAll (splitLoopFuel f (';' :: ':' :: s.drop (n + 4)))
            = stripSemi (s.drop 1)
        rw [ihs.1, ← hkeep, ← hstep]
      · show sections ((s.drop 1).take (n + 2))
            ++ concatAll ((splitLoopFuel f (';' :: ':' :: s.drop (n + 4))).map sections)
            = sections (stripSemi (s.drop 1))
        rw [ihs.2,
          ← sections_append_boundary ((s.drop 1).take (n + 2))
            (stripSemi (':' :: s.drop (n + 4))) hpn hpl (stripSemi_head_colon _),
          ← hkeep, ← hstep]

/-- The first payload emitted by the loop always begins with a colon. -/
theorem first_payload_head :
    ∀ (f : Nat) (s : List Char) (p : List Char),
      s.get? 0 = some ';' → s.get? 1 = some ':' →
      (splitLoopFuel f s).get? 0 = some p → p.head? = some ':' := by
  intro f
  cases f with
  | zero => intro s p _ _ h; simp [splitLoopFuel] at h
  | succ f =>
    intro s p h0 h1 h
    cases hfind : findN s with
    | none =>
      rw [show splitLoopFuel (f + 1) s
          = if 0 < s.length then [stripSemi s] else [] by
        simp [splitLoopFuel, hfind]] at h
      cases s with
      | nil => simp [List.get?] at h0
      | cons a t0 =>
        simp only [List.get?, Option.some.injEq] at h0
        subst h0
        cases t0 with
        | nil => simp [List.get?] at h1
        | cons b t =>
          simp only [List.get?, Option.some.injEq] at h1
          subst h1
          simp only [List.length_cons, if_pos (by omega : 0 < t.length + 1 + 1)] at h
          simp only [List.get?, Option.some.injEq] at h
          subst h
          rw [stripSemi_cons_semi]
          exact stripSemi_head_colon t
    | some n =>
      rw [show splitLoopFuel (f + 1) s
          = ((s.drop 1).take (n + 2)) :: splitLoopFuel f (';' :: ':' :: s.drop (n + 4)) by
        simp [splitLoopFuel, hfind]] at h
      simp only [List.get?, Option.some.injEq] at h
      subst h
      exact payload_head s n h1

/-- Shape of consecutive payloads: with enough fuel, whenever a payload is
followed by another one, the earlier payload has at most 1020 characters
and ends with a semicolon, and the later one begins with a colon. -/
theorem loop_shape :
    ∀ (f : Nat) (s : List Char), s.length ≤ f → s.head? = some ';' →
      ∀ i p q, (splitLoopFuel f s).get? i = some p →
        (splitLoopFuel f s).get? (i + 1) = some q →
        p.length ≤ 1020 ∧ p.getLast? = some ';' ∧ q.head? = some ':' := by
  intro f
  induction f with
  | zero =>
    intro s hf hh
    interval_cases hs : s.length
    · rw [List.length_eq_zero] at hs
      subst hs
      simp at hh
  | succ f ih =>
    intro s hf hh i p q hp hq
    cases hfind : findN s with
    | none =>
      have hpos : 0 < s.length := by
        cases s with
        | nil => simp at hh
        | cons a t => simp
      rw [show splitLoopFuel (f + 1) s
          = if 0 < s.length then [stripSemi s] else [] by
        simp [splitLoopFuel, hfind], if_pos hpos] at hq
      simp [List.get?] at hq
    | some n =>
      obtain ⟨hn, hlen, h0, h1, h2, h3⟩ := findN_spec s n hfind
      have hnews : (';' :: ':' :: s.drop (n + 4)).length ≤ f := by
        simp only [List.length_cons, List.length_drop]
        omega
      rw [show splitLoopFuel (f + 1) s
          = ((s.drop 1).take (n + 2)) :: splitLoopFuel f (';' :: ':' :: s.drop (n + 4)) by
        simp [splitLoopFuel, hfind]] at hp hq
      cases i with
      | zero =>
        simp only [List.get?, Option.some.injEq] at hp hq
        subst hp
        refine ⟨?_, payload_last s n h2, ?_⟩
        · rw [List.length_take]
          simp only [List.length_drop]
          omega
        · exact first_payload_head f (';' :: ':' :: s.drop (n + 4)) q rfl rfl hq
      | succ j =>
        simp only [List.get?] at hp hq
        exact ih (';' :: ':' :: s.drop (n + 4)) hnews rfl j p q hp hq

theorem semiNl_false_onlySemi (a : Char) (h : semiNl a = false) :
    onlySemi a = false := by
  simp only [semiNl, Bool.or_eq_false_iff] at h
  exact h.1

/-- The chunking loop applied to the long-branch start string, with the
trailing strip of the emitted payload concatenation resolved: the payload
concatenation is exactly the stripped input, and likewise for section
lists. -/
theorem splitPayloads_content (arg : List Char) :
    concatAll (splitPayloads arg) = stripSemiNl arg ∧
    concatAll ((splitPayloads arg).map sections) = sections (stripSemiNl arg) := by
  have hstrip : stripSemi (stripSemiNl arg ++ [';']) = stripSemiNl arg := by
    refine stripSemi_append_semi (stripSemiNl arg) ?_ ?_
    · intro a ha
      exact semiNl_false_onlySemi a (head?_stripBy_false semiNl arg a ha)
    · intro a ha
      exact semiNl_false_onlySemi a (getLast?_stripBy_false semiNl arg a ha)
  by_cases hlen : arg.length < 1018
  · simp only [splitPayloads, if_pos hlen]
    constructor
    · show stripSemiNl arg ++ [] = stripSemiNl arg
      rw [List.append_nil]
    · show sections (stripSemiNl arg) ++ [] = sections (stripSemiNl arg)
      rw [List.append_nil]
  · simp only [splitPayloads, if_neg hlen, splitLoopPayloads]
    have hmain := loop_main (';' :: (stripSemiNl arg ++ [';'])).length
      (';' :: (stripSemiNl arg ++ [';'])) (Nat.le_refl _) rfl
    rw [show (';' :: (stripSemiNl arg ++ [';'])).drop 1
        = stripSemiNl arg ++ [';'] from rfl] at hmain
    rw [hmain.1, hmain.2, hstrip]
    exact ⟨rfl, rfl⟩

/-- C4: for every composite string shorter than 1018 characters,
`splitInst` yields the single chunk `*WAI;` + trimmed input + newline; and
(for every input) concatenating the section lists of the emitted chunk
payloads in order reproduces the section list of the trimmed input exactly
once each. -/
theorem splitInst_content (arg : List Char) :
    (arg.length < 1018 →
      splitInstChunks arg = [waiChars ++ stripSemiNl arg ++ ['\n']]) ∧
    concatAll ((splitPayloads arg).map sections) = sections (stripSemiNl arg) := by
  constructor
  · intro hlen
    simp only [splitInstChunks, splitPayloads, if_pos hlen, List.map, chunkOf]
  · exact (splitPayloads_content arg).2

/-- C4 witness: the theorem instantiated at a concrete composite string of
two sections, 41 characters long. -/
theorem splitInst_content_witness :
    c4arg.length < 1018 ∧
    splitInstChunks c4arg = [waiChars ++ stripSemiNl c4arg ++ ['\n']] ∧
    concatAll ((splitPayloads c4arg).map sections) = sections (stripSemiNl c4arg) := by
  have h : c4arg.length < 1018 := by decide
  exact ⟨h, (splitInst_content c4arg).1 h, (splitInst_content c4arg).2⟩

/-- C3 (amended): every chunk emitted by `splitInst` begins with `*WAI;`;
every chunk that is followed by a further chunk has a payload of at most
1020 characters, hence a total length of at most 1026 characters (not
1018 and 1024 as claimed), its payload ends with a semicolon and the next
chunk payload begins with a colon (splits happen only at a
semicolon-then-colon section boundary).  The final chunk has no size
bound. -/
theorem splitInst_chunk_shape (arg : List Char) :
    (∀ c ∈ splitInstChunks arg, c.take 5 = waiChars) ∧
    (∀ i p q, (splitPayloads arg).get? i = some p →
        (splitPayloads arg).get? (i + 1) = some q →
        p.length ≤ 1020 ∧ p.getLast? = some ';' ∧ q.head? = some ':') ∧
    (∀ i c c2, (splitInstChunks arg).get? i = some c →
        (splitInstChunks arg).get? (i + 1) = some c2 → c.length ≤ 1026) := by
  have hpay : ∀ i p q, (splitPayloads arg).get? i = some p →
      (splitPayloads arg).get? (i + 1) = some q →
      p.length ≤ 1020 ∧ p.getLast? = some ';' ∧ q.head? = some ':' := by
    by_cases hlen : arg.length < 1018
    · intro i p q hp hq
      simp only [splitPayloads, if_pos hlen] at hq
      have : ([stripSemiNl arg].get? (i + 1)) = none := by
        cases i <;> simp [List.get?]
      rw [this] at hq
      cases hq
    · intro i p q hp hq
      simp only [splitPayloads, if_neg hlen, splitLoopPayloads] at hp hq
      exact loop_shape (';' :: (stripSemiNl arg ++ [';'])).length
        (';' :: (stripSemiNl arg ++ [';'])) (Nat.le_refl _) rfl i p q hp hq
  refine ⟨?_, hpay, ?_⟩
  · intro c hc
    obtain ⟨p, _, rfl⟩ := List.mem_map.mp hc
    rfl
  · intro i c c2 hc hc2
    simp only [splitInstChunks, List.get?_map] at hc hc2
    cases hp : (splitPayloads arg).get? i with
    | none => rw [hp] at hc; cases hc
    | some p =>
      cases hq : (splitPayloads arg).get? (i + 1) with
      | none => rw [hq] at hc2; cases hc2
      | some q =>
        rw [hp] at hc
        simp only [Option.map_some', Option.some.injEq] at hc
        subst hc
        have := (hpay i p q hp hq).1
        simp only [chunkOf, List.length_append, List.length_cons,
          List.length_nil, waiChars]
        omega

/-- C3 counterexample: on the 1022-character composite `c3arg` the first
emitted chunk is 1025 bytes long (1019-byte payload), violating both the
1024-byte total and the 1018-byte payload bound; on the 1050-character
single-section composite `c3tail` the only (final) chunk is 1055 bytes
long, so the final chunk obeys no such bound at all. -/
theorem splitInst_C3_cex :
    (splitInstChunks c3arg).map List.length = [1025, 8] ∧
    (splitInstChunks c3tail).map List.length = [1055] ∧
    ¬ (∀ c ∈ splitInstChunks c3arg, c.length ≤ 1024) := by
  have h : (splitInstChunks c3arg).map List.length = [1025, 8] := by decide
  have h2 : (splitInstChunks c3tail).map List.length = [1055] := by decide
  refine ⟨h, h2, fun hall => ?_⟩
  have hmem : (1025 : Nat) ∈ (splitInstChunks c3arg).map List.length := by
    rw [h]; simp
  obtain ⟨c, hc, hlen⟩ := List.mem_map.mp hmem
  have := hall c hc
  omega

/-- C3 witness: the amended theorem instantiated at `c3arg`, whose first
two chunk payloads are `c3p0` (1019 characters, ending in a semicolon) and
`c3p1` (starting with a colon). -/
theorem splitInst_chunk_shape_witness :
    (splitPayloads c3arg).get? 0 = some c3p0 ∧
    (splitPayloads c3arg).get? 1 = some c3p1 ∧
    (c3p0.length ≤ 1020 ∧ c3p0.getLast? = some ';' ∧ c3p1.head? = some ':') := by
  have h0 : (splitPayloads c3arg).get? 0 = some c3p0 := by decide
  have h1 : (splitPayloads c3arg).get? 1 = some c3p1 := by decide
  exact ⟨h0, h1, (splitInst_chunk_shape c3arg).2.1 0 c3p0 c3p1 h0 h1⟩

/- #### Filesystem lemmas -/

theorem fsLookup_write_self (fs : FS) (k : FKey) (v : String) :
    fsLookup (fsWrite fs k v) k = some v := by
  simp [fsWrite, fsLookup]

theorem fsLookup_write_ne (fs : FS) (k k2 : FKey) (v : String) (h : k2 ≠ k) :
    fsLookup (fsWrite fs k v) k2 = fsLookup fs k2 := by
  simp [fsWrite, fsLookup, h]

theorem slot_ne_bkup (m : Int) : FKey.slot m ≠ FKey.bkup := by
  intro h
  cases h

/- #### Claim theorems: block codec -/

/-- C1 (code bug): the block decode round-trip fails whenever the optional
line terminator precedes the payload, because line 459 compares the
`bytes` value `d0` with the `str` value of a newline, which is always
false in Python 3; the terminator byte is then treated as the first
payload byte.  Encoding one byte 65 with digit count 1 and the optional
terminator decodes to the single byte 10 (the terminator) instead of 65;
without the optional terminator the round trip does hold; the empty
payload with the terminator likewise decodes to the stray byte 10. -/
theorem capture_C1_eval :
    captureDecode (encodeBlock 1 false [65]) = Except.ok [65] ∧
    captureDecode (encodeBlock 1 true [65]) = Except.ok [10] ∧
    ([10] : List Nat) ≠ [65] ∧
    captureDecode (encodeBlock 1 true []) = Except.ok [10] ∧
    captureDecode (encodeBlock 6 true [65, 66, 67]) = Except.ok [10, 65, 66] :=
  ⟨rfl, rfl, by decide, rfl, rfl⟩

/- #### Claim theorems: save/undo -/

/-- C2 (code bug): `saveconfig(3)` followed by `undoSave` does not restore
slot 3.  `saveconfig` records the saved slot in the attribute `saveid`
(line 201) while `undoSave` tests `lastSavedId` (line 142), which still
holds its initial value -1, so the undo is a no-op: starting from a state
whose slot 3 holds "OLD", after a successful save of "NEW" and an undo,
slot 3 still holds "NEW" and the backup still exists. -/
theorem gui_C2_eval :
    fsLookup c2w.files (FKey.slot 3) = some "OLD" ∧
    (saveconfigModel true (true, "NEW") 3 c2w).2.saveid = some 3 ∧
    (saveconfigModel true (true, "NEW") 3 c2w).2.lastSavedId = -1 ∧
    undoSaveModel (saveconfigModel true (true, "NEW") 3 c2w).2
      = (saveconfigModel true (true, "NEW") 3 c2w).2 ∧
    fsLookup (undoSaveModel (saveconfigModel true (true, "NEW") 3 c2w).2).files
      (FKey.slot 3) = some "NEW" ∧
    some "NEW" ≠ some "OLD" := by
  refine ⟨by decide, by decide, by decide, by decide, by decide, by decide⟩

/- #### Claim theorems: loadconfig boundary -/

/-- C5 (amended): loading a slot whose file does not exist, on a connected
session with a responding device, returns 0, notifies "... not found.",
and leaves every numbered slot file unchanged — but it does overwrite the
backup file with the freshly queried live configuration (line 239 writes
the backup before the existence check of line 242), contrary to the
claim that the backup is not mutated. -/
theorem loadconfig_C5_amended (getcfg : Bool × String) (arg : Int) (w : GuiState)
    (h1 : getcfg.1 = true) (h2 : fsExists w.files (FKey.slot arg) = false) :
    (loadconfigModel true getcfg arg w).1 = 0 ∧
    (loadconfigModel true getcfg arg w).2.notifications
      = w.notifications ++ [slotFileName arg ++ " not found."] ∧
    (∀ m : Int, fsLookup (loadconfigModel true getcfg arg w).2.files (FKey.slot m)
      = fsLookup w.files (FKey.slot m)) ∧
    fsLookup (loadconfigModel true getcfg arg w).2.files FKey.bkup
      = some getcfg.2 := by
  have hex : fsExists (fsWrite w.files FKey.bkup getcfg.2) (FKey.slot arg) = false := by
    unfold fsExists at h2 ⊢
    rw [fsLookup_write_ne _ _ _ _ (slot_ne_bkup arg)]
    exact h2
  simp only [loadconfigModel, h1, hex]
  refine ⟨by simp, by simp, ?_, ?_⟩
  · intro m
    simp only [if_neg (by decide : ¬ (true = false)),
      if_neg (by decide : ¬ (false = true))]
    exact fsLookup_write_ne _ _ _ _ (slot_ne_bkup m)
  · simp only [if_neg (by decide : ¬ (true = false)),
      if_neg (by decide : ¬ (false = true))]
    exact fsLookup_write_self _ _ _

/-- C5 counterexample: loading missing slot 2 from a state whose backup
holds "OLDBKP", with the device reporting configuration "LIVE": the call
returns 0 and notifies, but the backup file afterwards holds "LIVE" — it
was mutated. -/
theorem loadconfig_C5_cex :
    (loadconfigModel true (true, "LIVE") 2 c5w).1 = 0 ∧
    (loadconfigModel true (true, "LIVE") 2 c5w).2.notifications
      = ["DL74x0-2.dat not found."] ∧
    fsLookup c5w.files FKey.bkup = some "OLDBKP" ∧
    fsLookup (loadconfigModel true (true, "LIVE") 2 c5w).2.files FKey.bkup
      = some "LIVE" ∧
    some "LIVE" ≠ some "OLDBKP" := by
  refine ⟨by decide, by decide, by decide, by decide, by decide⟩

/-- C5 witness: the amended theorem applied to the concrete state `c5w`
and missing slot 2. -/
theorem loadconfig_C5_amended_witness :
    ((true, "LIVE") : Bool × String).1 = true ∧
    fsExists c5w.files (FKey.slot 2) = false ∧
    ((loadconfigModel true (true, "LIVE") 2 c5w).1 = 0 ∧
      (loadconfigModel true (true, "LIVE") 2 c5w).2.notifications
        = c5w.notifications ++ [slotFileName 2 ++ " not found."] ∧
      (∀ m : Int, fsLookup (loadconfigModel true (true, "LIVE") 2 c5w).2.files
          (FKey.slot m) = fsLookup c5w.files (FKey.slot m)) ∧
      fsLookup (loadconfigModel true (true, "LIVE") 2 c5w).2.files FKey.bkup
        = some "LIVE") := by
  have h1 : ((true, "LIVE") : Bool × String).1 = true := rfl
  have h2 : fsExists c5w.files (FKey.slot 2) = false := by decide
  exact ⟨h1, h2, loadconfig_C5_amended (true, "LIVE") 2 c5w h1 h2⟩

/- #### Claim theorems: undoLoad -/

/-- C6 (code bug): with a backup file present (holding two command lines),
`undoLoad` does send every line of the backup to the device in order, but
then raises `AttributeError` at `shutil.remove(bkupfile)` (line 160: the
`shutil` module has no `remove` function), so the backup file is not
deleted and the fault propagates out of the operation.  With no backup
present, it notifies "... not found." and sends nothing, as claimed. -/
theorem gui_C6_eval :
    (undoLoadModel 2 c6w).2
      = some "AttributeError: module shutil has no attribute remove" ∧
    (undoLoadModel 2 c6w).1.sent = ["A\n", "B\n"] ∧
    fsLookup (undoLoadModel 2 c6w).1.files FKey.bkup = some "A\nB\n" ∧
    (undoLoadModel 2 (initGui [] 5000)).2 = none ∧
    (undoLoadModel 2 (initGui [] 5000)).1.sent = [] ∧
    (undoLoadModel 2 (initGui [] 5000)).1.notifications
      = ["DL74x0-bkup.dat not found."] := by
  refine ⟨by decide, by decide, by decide, by decide, by decide, by decide⟩

/- #### Claim theorems: block-start marker tolerance -/

theorem readB_one_cons (a : Nat) (l : List Nat) : readB 1 (a :: l) = some ([a], l) := by
  unfold readB
  rw [if_neg (by omega), if_neg (by simp only [List.length_cons]; omega)]
  rfl

/-- C7 counterexample: the reply stream 88, 89, 49, 51, 65, 66, 67, 10
(ASCII "XY13ABC" + newline) starts with two bytes that both differ from
the marker 35, yet the decode succeeds and returns the bytes 65, 66, 67 —
it is not a protocol failure. -/
theorem capture_C7_cex :
    (88 : Nat) ≠ 35 ∧ (89 : Nat) ≠ 35 ∧
    captureDecode [88, 89, 49, 51, 65, 66, 67, 10] = Except.ok [65, 66, 67] :=
  ⟨by decide, by decide, rfl⟩

/-- C7 (amended): when the first byte read is not the marker 35, exactly
one more byte is read and discarded without any check: the decode result
is the same as if that first byte had been the marker, whatever the second
byte holds.  Decoding fails later only if the subsequent digit-count or
length field fails to parse. -/
theorem capture_C7_amended (x y : Nat) (rest : List Nat) (h : x ≠ 35) :
    captureDecode (x :: y :: rest) = captureDecode (35 :: rest) := by
  have hx : ([x] : List Nat) ≠ [35] := by
    intro he
    injection he with he2
    exact h he2
  unfold captureDecode capturePhase1
  rw [readB_one_cons x (y :: rest), readB_one_cons 35 rest]
  simp only [if_pos hx, if_neg (by simp : ¬ (([35] : List Nat) ≠ [35])),
    readB_one_cons y rest]

/-- C7 witness: the amended theorem applied at the counterexample stream. -/
theorem capture_C7_amended_witness :
    (88 : Nat) ≠ 35 ∧
    captureDecode [88, 89, 49, 51, 65, 66, 67, 10]
      = captureDecode [35, 49, 51, 65, 66, 67, 10] :=
  ⟨by decide, capture_C7_amended 88 89 [49, 51, 65, 66, 67, 10] (by decide)⟩

/- #### Claim theorems: setconfig -/

/-- C8 counterexample: when the write of the command times out and the
`*CLS` write of the exception handler also times out, the `VisaIOError`
raised by the latter escapes `setconfig` (it is outside the try block) and
the device timeout is left at 20000 instead of being restored to its
previous value 5000. -/
theorem setconfig_C8_cex :
    (setconfigModel WOut.visaTimeout WOut.visaTimeout "X"
        { timeout := 5000, written := [] }).2 = Except.error () ∧
    (setconfigModel WOut.visaTimeout WOut.visaTimeout "X"
        { timeout := 5000, written := [] }).1.timeout = 20000 ∧
    (20000 : Int) ≠ 5000 :=
  ⟨rfl, rfl, by decide⟩

/-- C8 (amended): on a connected session, when the write succeeds,
`setconfig` returns `True` with the command written and the timeout
restored; when the write times out and the `*CLS` write succeeds, it
returns `False` with `*CLS` written and the timeout restored; but when
both writes time out the exception escapes and the timeout stays at
20000. -/
theorem setconfig_C8_amended (o1 o2 : WOut) (arg : String) (d : Inst) :
    (o1 = WOut.writeOk →
      setconfigModel o1 o2 arg d
        = ({ d with written := d.written ++ [arg] }, Except.ok true)) ∧
    (o1 = WOut.visaTimeout → o2 = WOut.writeOk →
      setconfigModel o1 o2 arg d
        = ({ d with written := d.written ++ ["*CLS"] }, Except.ok false)) ∧
    (o1 = WOut.visaTimeout → o2 = WOut.visaTimeout →
      setconfigModel o1 o2 arg d
        = ({ d with timeout := 20000 }, Except.error ())) := by
  refine ⟨?_, ?_, ?_⟩
  · intro h1; subst h1; rfl
  · intro h1 h2; subst h1; subst h2; rfl
  · intro h1 h2; subst h1; subst h2; rfl

/-- C8 witness: the amended theorem applied at the write-timeout,
clear-succeeds outcome. -/
theorem setconfig_C8_amended_witness :
    WOut.visaTimeout = WOut.visaTimeout ∧
    setconfigModel WOut.visaTimeout WOut.writeOk "CMD"
        { timeout := 5000, written := [] }
      = ({ timeout := 5000, written := ["*CLS"] }, Except.ok false) :=
  ⟨rfl, (setconfig_C8_amended WOut.visaTimeout WOut.writeOk "CMD"
    { timeout := 5000, written := [] }).2.1 rfl rfl⟩

/- #### Claim theorems: discovery -/

/-- Behaviour of the scanning loop from an unconnected session: it opens
every candidate up to and including the first match and closes none of
them, binds the transport to the first match, and sets the device family
together with the transport. -/
theorem connectScan_spec :
    ∀ (cands : List Candidate) (s : Session), s.inst = none →
      (connectScan cands s).openAddrs = s.openAddrs ++ openedDuring cands ∧
      (connectScan cands s).inst = firstMatchAddr cands ∧
      ((connectScan cands s).inst = none →
        (connectScan cands s).devname = s.devname) ∧
      ((connectScan cands s).inst.isSome = true →
        (connectScan cands s).devname ≠ "") := by
  intro cands
  induction cands with
  | nil =>
    intro s h
    simp [connectScan, openedDuring, firstMatchAddr, h]
  | cons c rest ih =>
    intro s h
    have hnotsome : ¬ s.inst.isSome = true := by rw [h]; simp
    simp only [connectScan, if_neg hnotsome]
    cases hidn : c.idn with
    | none =>
      have := ih { s with openAddrs := s.openAddrs ++ [c.addr] } h
      simp only [openedDuring, firstMatchAddr, hidn]
      refine ⟨?_, this.2.1, this.2.2.1, this.2.2.2⟩
      rw [this.1]
      simp
    | some idn =>
      cases h44 : matchDL7440 idn with
      | true =>
        simp only [openedDuring, firstMatchAddr, hidn, h44, Bool.true_or,
          if_pos rfl, if_true]
        refine ⟨by simp, by trivial, ?_, ?_⟩
        · intro habs; cases habs
        · intro _; simp
      | false =>
        cases h80 : matchDL7480 idn with
        | true =>
          simp only [openedDuring, firstMatchAddr, hidn, h44, h80,
            Bool.false_or, if_pos rfl, if_true, Bool.false_eq_true, if_false]
          refine ⟨by simp, by trivial, ?_, ?_⟩
          · intro habs; cases habs
          · intro _; simp
        | false =>
          have := ih { s with openAddrs := s.openAddrs ++ [c.addr] } h
          simp only [openedDuring, firstMatchAddr, hidn, h44, h80,
            Bool.false_or, Bool.false_eq_true, if_false]
          refine ⟨?_, this.2.1, this.2.2.1, this.2.2.2⟩
          rw [this.1]
          simp

/-- C9 (amended): `connect` on an unconnected session retains, open, every
transport it opened while scanning — the candidates up to and including
the first matching one; unmatched candidates are never closed, contrary to
the claim.  The session is bound to the first matching candidate and the
returned boolean reports whether one matched. -/
theorem connect_C9_amended (cands : List Candidate) (s : Session)
    (h : s.inst = none) :
    (connectModel cands s).1.openAddrs = s.openAddrs ++ openedDuring cands ∧
    (connectModel cands s).1.inst = firstMatchAddr cands ∧
    (connectModel cands s).2 = (firstMatchAddr cands).isSome := by
  have hnotsome : ¬ s.inst.isSome = true := by rw [h]; simp
  simp only [connectModel, if_neg hnotsome]
  have := connectScan_spec cands s h
  exact ⟨this.1, this.2.1, by rw [this.2.1]⟩

/-- C9 counterexample: scanning two candidates where the first replies
with a non-matching identification and the second matches: at return the
session holds the second transport, but the first opened-and-unmatched
transport is still in the open set — it was not closed. -/
theorem connect_C9_cex :
    (connectModel c9cands initSession).1.inst = some "USB0::a2" ∧
    (connectModel c9cands initSession).1.openAddrs = ["USB0::a1", "USB0::a2"] ∧
    "USB0::a1" ∈ (connectModel c9cands initSession).1.openAddrs ∧
    (connectModel c9cands initSession).2 = true := by
  refine ⟨by decide, by decide, by decide, by decide⟩

/-- C9 witness: the amended theorem applied to the two-candidate scan. -/
theorem connect_C9_amended_witness :
    initSession.inst = none ∧
    ((connectModel c9cands initSession).1.openAddrs
        = initSession.openAddrs ++ openedDuring c9cands ∧
      (connectModel c9cands initSession).1.inst = firstMatchAddr c9cands ∧
      (connectModel c9cands initSession).2 = (firstMatchAddr c9cands).isSome) :=
  ⟨rfl, connect_C9_amended c9cands initSession rfl⟩

/- #### Claim theorems: session identity invariant -/

/-- C10 (amended): the invariant "device family recorded iff transport
bound" holds after construction, is preserved by `connect` and by the
destructor, but `closeinst` on a connected session violates it: it clears
the transport while leaving the device family recorded. -/
theorem session_C10_amended :
    sessionInv initSession ∧
    (∀ cands s, sessionInv s → sessionInv (connectModel cands s).1) ∧
    (∀ s, sessionInv s → sessionInv (delModel s)) ∧
    (∀ s, sessionInv s → s.inst.isSome = true →
      ¬ sessionInv (closeinstModel s)) := by
  refine ⟨by decide, ?_, ?_, ?_⟩
  · intro cands s hs
    cases hinst : s.inst with
    | some a =>
      have : s.inst.isSome = true := by rw [hinst]; rfl
      simp only [connectModel, if_pos this]
      exact hs
    | none =>
      have hnotsome : ¬ s.inst.isSome = true := by rw [hinst]; simp
      simp only [connectModel, if_neg hnotsome]
      have hspec := connectScan_spec cands s hinst
      unfold sessionInv
      cases hres : (connectScan cands s).inst with
      | none =>
        have hdev := hspec.2.2.1 hres
        rw [hdev]
        have : s.devname = "" := by
          by_contra hne
          have := (hs.mp hne)
          rw [hinst] at this
          cases this
        rw [this]
        simp
      | some a =>
        have hdev := hspec.2.2.2 (by rw [hres]; rfl)
        simp [hdev]
  · intro s hs
    cases hinst : s.inst with
    | some a =>
      have : s.inst.isSome = true := by rw [hinst]; rfl
      simp only [delModel, if_pos this]
      unfold sessionInv
      simp
    | none =>
      have hnotsome : ¬ s.inst.isSome = true := by rw [hinst]; simp
      simp only [delModel, if_neg hnotsome]
      exact hs
  · intro s hs hsome hinv
    have hdev : s.devname ≠ "" := hs.mpr hsome
    have : (closeinstModel s).devname ≠ "" := hdev
    have hnone : (closeinstModel s).inst.isSome = false := rfl
    rw [hinv.mp this] at hnone
    cases hnone

/-- C10 counterexample: connect to a matching candidate, then `closeinst`:
the transport is gone but the device family field still reads "DL7440",
violating the invariant. -/
theorem session_C10_cex :
    (closeinstModel (connectModel c10cands initSession).1).inst = none ∧
    (closeinstModel (connectModel c10cands initSession).1).devname = "DL7440" ∧
    ¬ sessionInv (closeinstModel (connectModel c10cands initSession).1) := by
  refine ⟨by decide, by decide, by decide⟩

/-- C10 witness: the amended theorem instantiated at the one-candidate
connect followed by `closeinst`. -/
theorem session_C10_amended_witness :
    sessionInv initSession ∧
    sessionInv (connectModel c10cands initSession).1 ∧
    (connectModel c10cands initSession).1.inst.isSome = true ∧
    ¬ sessionInv (closeinstModel (connectModel c10cands initSession).1) := by
  have h1 : sessionInv initSession := session_C10_amended.1
  have h2 : sessionInv (connectModel c10cands initSession).1 :=
    session_C10_amended.2.1 c10cands initSession h1
  have h3 : (connectModel c10cands initSession).1.inst.isSome = true := by decide
  exact ⟨h1, h2, h3, session_C10_amended.2.2.2 _ h2 h3⟩

end DL7480CTL
